import Mathlib

/-
Verification of the Keccak256-based XOF-PRNG engine of falcon-go.

The engine exists in three variants in the sources:
* `KeccakPrng`    — src/c/keccak_prng.c (counter-mode expansion, no output cache);
* `KeccakPrngBuf` — the caching variant (counter-mode expansion with an output
  cache that serves leftover bytes of a partially consumed block);
* `KeccakPrngDS`  — the variant that appends a SHAKE domain-separation byte
  (0x1F) to the buffered input before the finalizing digest.

The hash primitive (keccak256.c / keccak_tiny) and the constants of inner.h are
not part of the sources; following the specification they are treated as
parameters: `H` is the 32-byte digest function and `MAX` the fixed input
capacity `MAX_BUFFER_SIZE`.
-/

namespace FalconPrng

/-- Bytes are modelled as natural numbers. -/
abbrev Byte := Nat

/-- Modelled from the spec: `KECCAK256_OUTPUT` is defined in inner.h, which is
not among the sources; the spec fixes the derived state and every expansion
block at 32 bytes (a 256-bit digest). -/
def KECCAK256_OUTPUT : Nat := 32

/-- Big-endian 8-byte encoding of the 64-bit counter, as computed by
`block[KECCAK256_OUTPUT + i] = (sc->counter >> (56 - i * 8)) & 0xFF`
for `i = 0..7`. -/
def be64 (c : Nat) : List Byte :=
  (List.range 8).map (fun i => c / 2 ^ (56 - 8 * i) % 256)

/-- Engine context `inner_keccak256_prng_ctx` of src/c/keccak_prng.c
(non-caching build): `buffer` models the first `buffer_len` valid bytes of the
input array, `state` the 32-byte derived state. -/
structure prng_ctx where
  buffer : List Byte
  state : List Byte
  counter : Nat
  finalized : Bool
deriving DecidableEq

/-- Engine context of the caching variant: additionally carries the output
cache `out_buffer` together with its cursor `out_buffer_pos` and fill level
`out_buffer_len`. -/
structure prng_ctx_buf where
  buffer : List Byte
  state : List Byte
  counter : Nat
  finalized : Bool
  out_buffer : List Byte
  out_buffer_pos : Nat
  out_buffer_len : Nat
deriving DecidableEq

/-- The pristine context established by `inner_keccak256_init`
(buffer zeroed and empty, state zeroed, counter 0, not finalized). -/
def pristine_ctx : prng_ctx :=
  { buffer := [], state := List.replicate 32 0, counter := 0, finalized := false }

/-- The pristine context of the caching variant (output cache empty). -/
def pristine_ctx_buf : prng_ctx_buf :=
  { buffer := [], state := List.replicate 32 0, counter := 0, finalized := false,
    out_buffer := [], out_buffer_pos := 0, out_buffer_len := 0 }

/-- The body of the `while (offset < len)` squeeze loop shared by
src/c/keccak_prng.c and src/unnamed/part_001: each iteration hashes
`state ‖ be64(counter)`, copies `min(32, len - offset)` bytes of the digest and
increments the 64-bit counter.  Every iteration consumes at least one byte, so
running the loop with structural fuel `len` is exact.  Returns the produced
bytes and the final counter. -/
def extract_loop (H : List Byte → List Byte) (st : List Byte) :
    Nat → Nat → Nat → List Byte × Nat
  | c, _, 0 => ([], c)
  | c, 0, _ + 1 => ([], c)
  | c, fuel + 1, len + 1 =>
    let blk := H (st ++ be64 c)
    let t := min 32 (len + 1)
    let r := extract_loop H st ((c + 1) % 2 ^ 64) fuel (len + 1 - t)
    (blk.take t ++ r.1, r.2)

/-- The squeeze loop of the caching variant: identical block generation, but
each iteration additionally stores the fresh block in `out_buffer`, sets
`out_buffer_len` to 32 and leaves `out_buffer_pos` at the number of bytes
consumed from that block.  Returns the produced bytes, the final counter and
the final `(out_buffer, out_buffer_pos, out_buffer_len)`. -/
def extract_loop_buf (H : List Byte → List Byte) (st : List Byte) :
    Nat → Nat → Nat → List Byte → Nat → Nat →
    List Byte × Nat × List Byte × Nat × Nat
  | c, _, 0, ob, obp, obl => ([], c, ob, obp, obl)
  | c, 0, _ + 1, ob, obp, obl => ([], c, ob, obp, obl)
  | c, fuel + 1, len + 1, _, _, _ =>
    let blk := H (st ++ be64 c)
    let t := min 32 (len + 1)
    let r := extract_loop_buf H st ((c + 1) % 2 ^ 64) fuel (len + 1 - t) blk t 32
    (blk.take t ++ r.1, r.2)

namespace KeccakPrng

/-- `inner_keccak256_init` of src/c/keccak_prng.c: unconditionally resets the
context (memsets buffer and state, zeroes lengths, counter and flag). -/
def inner_keccak256_init (_sc : prng_ctx) : Int × prng_ctx :=
  (0, pristine_ctx)

/-- `inner_keccak256_inject` of src/c/keccak_prng.c: rejected with -2 after
finalization, with -3 if the buffer would overflow `MAX`; otherwise appends the
chunk to the buffer. -/
def inner_keccak256_inject (MAX : Nat) (sc : prng_ctx) (input : List Byte) :
    Int × prng_ctx :=
  if sc.finalized then (-2, sc)
  else if sc.buffer.length + input.length > MAX then (-3, sc)
  else (0, { sc with buffer := sc.buffer ++ input })

/-- `inner_keccak256_flip` of src/c/keccak_prng.c: rejected with -2 if already
finalized; otherwise digests the buffered bytes into `state` and sets the
flag. -/
def inner_keccak256_flip (H : List Byte → List Byte) (sc : prng_ctx) :
    Int × prng_ctx :=
  if sc.finalized then (-2, sc)
  else (0, { sc with state := H sc.buffer, finalized := true })

/-- `inner_keccak256_extract` of src/c/keccak_prng.c: rejected with -2 before
finalization; otherwise runs the counter-mode squeeze loop.  Returns the error
code, the produced bytes and the updated context. -/
def inner_keccak256_extract (H : List Byte → List Byte) (sc : prng_ctx)
    (len : Nat) : Int × List Byte × prng_ctx :=
  if sc.finalized = false then (-2, [], sc)
  else
    let r := extract_loop H sc.state sc.counter len len
    (0, r.1, { sc with counter := r.2 })

end KeccakPrng

namespace KeccakPrngBuf

/-- `inner_keccak256_init` of the caching variant: additionally resets the
output cache cursor and fill level. -/
def inner_keccak256_init (_sc : prng_ctx_buf) : Int × prng_ctx_buf :=
  (0, pristine_ctx_buf)

/-- `inner_keccak256_inject` of the caching variant (same code as the
non-caching one). -/
def inner_keccak256_inject (MAX : Nat) (sc : prng_ctx_buf) (input : List Byte) :
    Int × prng_ctx_buf :=
  if sc.finalized then (-2, sc)
  else if sc.buffer.length + input.length > MAX then (-3, sc)
  else (0, { sc with buffer := sc.buffer ++ input })

/-- `inner_keccak256_flip` of the caching variant: as the non-caching one, and
resets the output cache. -/
def inner_keccak256_flip (H : List Byte → List Byte) (sc : prng_ctx_buf) :
    Int × prng_ctx_buf :=
  if sc.finalized then (-2, sc)
  else (0, { sc with state := H sc.buffer, finalized := true,
                     out_buffer_pos := 0, out_buffer_len := 0 })

/-- `inner_keccak256_extract` of the caching variant: first serves up to
`out_buffer_len - out_buffer_pos` bytes from the cached block (returning early
when that satisfies the request), then generates fresh blocks with the caching
squeeze loop. -/
def inner_keccak256_extract (H : List Byte → List Byte) (sc : prng_ctx_buf)
    (len : Nat) : Int × List Byte × prng_ctx_buf :=
  if sc.finalized = false then (-2, [], sc)
  else
    let avail := sc.out_buffer_len - sc.out_buffer_pos
    let t0 := min len avail
    let served := (sc.out_buffer.drop sc.out_buffer_pos).take t0
    let rem := len - t0
    if rem = 0 then
      (0, served, { sc with out_buffer_pos := sc.out_buffer_pos + t0 })
    else
      let r := extract_loop_buf H sc.state sc.counter rem rem
          sc.out_buffer (sc.out_buffer_pos + t0) sc.out_buffer_len
      (0, served ++ r.1,
        { sc with counter := r.2.1, out_buffer := r.2.2.1,
                  out_buffer_pos := r.2.2.2.1, out_buffer_len := r.2.2.2.2 })

end KeccakPrngBuf

namespace KeccakPrngDS

/-- `inner_keccak256_init` of src/unnamed/part_001 (same code as the
non-caching variant). -/
def inner_keccak256_init (_sc : prng_ctx) : Int × prng_ctx :=
  (0, pristine_ctx)

/-- `inner_keccak256_inject` of src/unnamed/part_001 (same code as the
non-caching variant). -/
def inner_keccak256_inject (MAX : Nat) (sc : prng_ctx) (input : List Byte) :
    Int × prng_ctx :=
  if sc.finalized then (-2, sc)
  else if sc.buffer.length + input.length > MAX then (-3, sc)
  else (0, { sc with buffer := sc.buffer ++ input })

/-- `inner_keccak256_flip` of src/unnamed/part_001: rejected with -2 if already
finalized, with -3 if appending the domain-separation byte 0x1F would overflow
`MAX`; otherwise appends 0x1F to the buffer, digests the extended buffer into
`state` and sets the flag. -/
def inner_keccak256_flip (H : List Byte → List Byte) (MAX : Nat)
    (sc : prng_ctx) : Int × prng_ctx :=
  if sc.finalized then (-2, sc)
  else if sc.buffer.length + 1 > MAX then (-3, sc)
  else (0, { sc with buffer := sc.buffer ++ [0x1F],
                     state := H (sc.buffer ++ [0x1F]), finalized := true })

end KeccakPrngDS

/-- The concatenation `H(st ‖ be64 c) ‖ H(st ‖ be64 (c+1)) ‖ …` of `k`
consecutive expansion blocks starting at counter `c` — the counter-mode stream
the specification describes. -/
def blocks (H : List Byte → List Byte) (st : List Byte) : Nat → Nat → List Byte
  | _, 0 => []
  | c, k + 1 => H (st ++ be64 c) ++ blocks H st (c + 1) k

/-- The full pipeline of the non-caching engine: init, inject the given chunks
one call at a time, finalize, extract `n` bytes in one call; returns the
extracted bytes. -/
def pipelineOut (H : List Byte → List Byte) (MAX : Nat)
    (chunks : List (List Byte)) (n : Nat) : List Byte :=
  let sc0 := (KeccakPrng.inner_keccak256_init pristine_ctx).2
  let sc1 := chunks.foldl
    (fun sc a => (KeccakPrng.inner_keccak256_inject MAX sc a).2) sc0
  let sc2 := (KeccakPrng.inner_keccak256_flip H sc1).2
  (KeccakPrng.inner_keccak256_extract H sc2 n).2.1

/-- Drive the non-caching engine with a full script: init, inject `seed`,
finalize, then perform one extract call per entry of `calls`, concatenating
everything the engine hands back. -/
def runScript (H : List Byte → List Byte) (MAX : Nat) (seed : List Byte)
    (calls : List Nat) : List Byte :=
  let sc0 := (KeccakPrng.inner_keccak256_init pristine_ctx).2
  let sc1 := (KeccakPrng.inner_keccak256_inject MAX sc0 seed).2
  let sc2 := (KeccakPrng.inner_keccak256_flip H sc1).2
  (calls.foldl
    (fun (acc : List Byte × prng_ctx) n =>
      let r := KeccakPrng.inner_keccak256_extract H acc.2 n
      (acc.1 ++ r.2.1, r.2.2))
    ([], sc2)).1

/-- Drive the caching engine with the identical script. -/
def runScriptBuf (H : List Byte → List Byte) (MAX : Nat) (seed : List Byte)
    (calls : List Nat) : List Byte :=
  let sc0 := (KeccakPrngBuf.inner_keccak256_init pristine_ctx_buf).2
  let sc1 := (KeccakPrngBuf.inner_keccak256_inject MAX sc0 seed).2
  let sc2 := (KeccakPrngBuf.inner_keccak256_flip H sc1).2
  (calls.foldl
    (fun (acc : List Byte × prng_ctx_buf) n =>
      let r := KeccakPrngBuf.inner_keccak256_extract H acc.2 n
      (acc.1 ++ r.2.1, r.2.2))
    ([], sc2)).1

/-- A concrete stand-in digest used to evaluate the engines on closed inputs:
maps a byte list to 32 copies of a simple checksum.  (The real Keccak-256 is
external to the sources; every structural property proved below is
parameterized over the digest.) -/
def testH (x : List Byte) : List Byte :=
  List.replicate 32 ((x.sum + x.length) % 256)

/-- Correspondence between a non-caching and a caching context: the absorb
phase fields agree and the caching side's output cache is exhausted
(`out_buffer_len ≤ out_buffer_pos`). -/
def cacheSpent (sc : prng_ctx) (scB : prng_ctx_buf) : Prop :=
  scB.buffer = sc.buffer ∧ scB.state = sc.state ∧ scB.counter = sc.counter ∧
  scB.finalized = sc.finalized ∧ scB.out_buffer_len ≤ scB.out_buffer_pos

theorem mod_pow_div_mod (c k : Nat) (h : k ≤ 56) :
    c % 2 ^ 64 / 2 ^ k % 256 = c / 2 ^ k % 256 := by
  have h1 : (2 : Nat) ^ 64 = 2 ^ k * 2 ^ (64 - k) := by
    rw [← pow_add]
    congr 1
    omega
  rw [h1, Nat.mod_mul_right_div_self]
  have h2 : (256 : Nat) ∣ 2 ^ (64 - k) := by
    have h3 : (2 : Nat) ^ 8 ∣ 2 ^ (64 - k) := pow_dvd_pow 2 (by omega)
    simpa using h3
  exact Nat.mod_mod_of_dvd _ h2

/-- The 64-bit counter is only observed through its big-endian encoding, which
cannot distinguish a counter from its value modulo `2^64`. -/
theorem be64_mod (c : Nat) : be64 (c % 2 ^ 64) = be64 c := by
  unfold be64
  refine List.map_congr_left fun i hi => ?_
  have h8 : i < 8 := List.mem_range.mp hi
  exact mod_pow_div_mod c (56 - 8 * i) (by omega)

/-- Two starting counters that agree modulo `2^64` generate the same block
stream. -/
theorem blocks_congr (H : List Byte → List Byte) (st : List Byte) :
    ∀ k c c', c % 2 ^ 64 = c' % 2 ^ 64 →
      blocks H st c k = blocks H st c' k := by
  intro k
  induction k with
  | zero => intro c c' _; rfl
  | succ k ih =>
    intro c c' hcc
    have hbe : be64 c = be64 c' := by
      rw [← be64_mod c, ← be64_mod c', hcc]
    have hstep : (c + 1) % 2 ^ 64 = (c' + 1) % 2 ^ 64 := by
      rw [Nat.add_mod, hcc, ← Nat.add_mod]
    simp only [blocks, hbe, ih (c + 1) (c' + 1) hstep]

/-- Length of a block-stream segment when the digest yields 32 bytes. -/
theorem blocks_length (H : List Byte → List Byte) (st : List Byte)
    (hH : ∀ x, (H x).length = 32) :
    ∀ k c, (blocks H st c k).length = 32 * k := by
  intro k
  induction k with
  | zero => intro c; rfl
  | succ k ih =>
    intro c
    simp only [blocks, List.length_append, hH, ih]
    omega

/-- Splitting a block-stream segment. -/
theorem blocks_add (H : List Byte → List Byte) (st : List Byte) :
    ∀ k1 k2 c, blocks H st c (k1 + k2) =
      blocks H st c k1 ++ blocks H st (c + k1) k2 := by
  intro k1
  induction k1 with
  | zero => intro k2 c; simp [blocks]
  | succ k1 ih =>
    intro k2 c
    have harr : k1 + 1 + k2 = (k1 + k2) + 1 := by omega
    rw [harr]
    simp only [blocks, ih k2 (c + 1), List.append_assoc]
    have harg : c + 1 + k1 = c + (k1 + 1) := by omega
    rw [harg]

/-- The squeeze loop, run with fuel at least `len`, produces exactly the first
`len` bytes of the block stream starting at the current counter (using
`⌈len/32⌉` blocks). -/
theorem extract_loop_out (H : List Byte → List Byte) (st : List Byte)
    (hH : ∀ x, (H x).length = 32) :
    ∀ fuel len c, len ≤ fuel →
      (extract_loop H st c fuel len).1 =
        (blocks H st c ((len + 31) / 32)).take len := by
  intro fuel
  induction fuel with
  | zero =>
    intro len c hlen
    have h0 : len = 0 := by omega
    subst h0
    simp [extract_loop]
  | succ fuel ih =>
    intro len c hlen
    match len with
    | 0 => simp [extract_loop]
    | m + 1 =>
      simp only [extract_loop]
      by_cases hm : m + 1 ≤ 32
      · have ht : min 32 (m + 1) = m + 1 := by omega
        have h0 : m + 1 - (m + 1) = 0 := by omega
        have hceil : (m + 1 + 31) / 32 = 1 := by omega
        rw [ht, h0, hceil]
        simp [extract_loop, blocks]
      · have ht : min 32 (m + 1) = 32 := by omega
        rw [ht]
        have hrec := ih (m + 1 - 32) ((c + 1) % 2 ^ 64) (by omega)
        rw [hrec]
        have hblk : blocks H st ((c + 1) % 2 ^ 64) ((m + 1 - 32 + 31) / 32) =
            blocks H st (c + 1) ((m + 1 - 32 + 31) / 32) :=
          blocks_congr H st _ _ _ (Nat.mod_mod_of_dvd _ dvd_rfl)
        rw [hblk]
        have hceil : (m + 1 + 31) / 32 = (m + 1 - 32 + 31) / 32 + 1 := by omega
        rw [hceil]
        have hlen32 : (H (st ++ be64 c)).length = 32 := hH _
        simp only [blocks]
        rw [List.take_append_eq_append_take, hlen32]
        congr 1
        rw [List.take_of_length_le hlen32.le,
          List.take_of_length_le (by rw [hlen32]; omega)]

/-- The final counter of the squeeze loop: unchanged for an empty request,
otherwise advanced (modulo `2^64`) by one per block produced. -/
theorem extract_loop_counter (H : List Byte → List Byte) (st : List Byte) :
    ∀ fuel len c, len ≤ fuel →
      (extract_loop H st c fuel len).2 =
        if len = 0 then c else (c + (len + 31) / 32) % 2 ^ 64 := by
  intro fuel
  induction fuel with
  | zero =>
    intro len c hlen
    have h0 : len = 0 := by omega
    subst h0
    simp [extract_loop]
  | succ fuel ih =>
    intro len c hlen
    match len with
    | 0 => simp [extract_loop]
    | m + 1 =>
      simp only [extract_loop]
      by_cases hm : m + 1 ≤ 32
      · have ht : min 32 (m + 1) = m + 1 := by omega
        have h0 : m + 1 - (m + 1) = 0 := by omega
        have hceil : (m + 1 + 31) / 32 = 1 := by omega
        rw [ht, h0, hceil]
        simp [extract_loop]
      · have ht : min 32 (m + 1) = 32 := by omega
        rw [ht]
        have hrec := ih (m + 1 - 32) ((c + 1) % 2 ^ 64) (by omega)
        rw [hrec]
        have hne : ¬(m + 1 - 32 = 0) := by omega
        rw [if_neg hne, if_neg (by omega)]
        have hceil : (m + 1 + 31) / 32 = (m + 1 - 32 + 31) / 32 + 1 := by omega
        rw [hceil, Nat.mod_add_mod]
        congr 1
        omega

/-- The caching squeeze loop produces the same bytes and the same final
counter as the non-caching loop, whatever cache it starts from. -/
theorem extract_loop_buf_eq (H : List Byte → List Byte) (st : List Byte) :
    ∀ fuel len c ob obp obl,
      (extract_loop_buf H st c fuel len ob obp obl).1 =
        (extract_loop H st c fuel len).1 ∧
      (extract_loop_buf H st c fuel len ob obp obl).2.1 =
        (extract_loop H st c fuel len).2 := by
  intro fuel
  induction fuel with
  | zero =>
    intro len c ob obp obl
    match len with
    | 0 => exact ⟨rfl, rfl⟩
    | m + 1 => exact ⟨rfl, rfl⟩
  | succ fuel ih =>
    intro len c ob obp obl
    match len with
    | 0 => exact ⟨rfl, rfl⟩
    | m + 1 =>
      simp only [extract_loop_buf, extract_loop]
      exact ⟨by rw [(ih _ _ _ _ _).1], (ih _ _ _ _ _).2⟩

/-- If the squeeze loop starts with an exhausted cache and the request length
is a multiple of the block size, the final cache is exhausted as well. -/
theorem extract_loop_buf_spent (H : List Byte → List Byte) (st : List Byte) :
    ∀ fuel len c ob obp obl, obl ≤ obp → 32 ∣ len →
      (extract_loop_buf H st c fuel len ob obp obl).2.2.2.2 ≤
        (extract_loop_buf H st c fuel len ob obp obl).2.2.2.1 := by
  intro fuel
  induction fuel with
  | zero =>
    intro len c ob obp obl hle _
    match len with
    | 0 => exact hle
    | m + 1 => exact hle
  | succ fuel ih =>
    intro len c ob obp obl hle hdvd
    match len with
    | 0 => exact hle
    | m + 1 =>
      have h32 : 32 ≤ m + 1 := Nat.le_of_dvd (by omega) hdvd
      simp only [extract_loop_buf]
      have ht : min 32 (m + 1) = 32 := by omega
      rw [ht]
      exact ih (m + 1 - 32) _ _ _ _ (le_refl 32) (by omega)

/-- One extract call of a block-aligned length keeps the two variants in
lock-step: equal bytes out, and the `cacheSpent` correspondence is
preserved. -/
theorem extract_preserves_cacheSpent (H : List Byte → List Byte)
    (sc : prng_ctx) (scB : prng_ctx_buf) (n : Nat)
    (hrel : cacheSpent sc scB) (hdvd : 32 ∣ n) :
    (KeccakPrngBuf.inner_keccak256_extract H scB n).2.1 =
      (KeccakPrng.inner_keccak256_extract H sc n).2.1 ∧
    cacheSpent (KeccakPrng.inner_keccak256_extract H sc n).2.2
      (KeccakPrngBuf.inner_keccak256_extract H scB n).2.2 := by
  obtain ⟨hb, hs, hc, hf, hcache⟩ := hrel
  have havail : scB.out_buffer_len - scB.out_buffer_pos = 0 :=
    Nat.sub_eq_zero_of_le hcache
  by_cases hfin : sc.finalized = true
  · have hfinB : scB.finalized = true := by rw [hf, hfin]
    by_cases hn : n = 0
    · subst hn
      constructor
      · simp [KeccakPrng.inner_keccak256_extract,
          KeccakPrngBuf.inner_keccak256_extract, hfin, hfinB, havail,
          extract_loop]
      · refine ⟨?_, ?_, ?_, ?_, ?_⟩ <;>
          simp [KeccakPrng.inner_keccak256_extract,
            KeccakPrngBuf.inner_keccak256_extract, hfin, hfinB, havail,
            extract_loop, hb, hs, hc, hf, hcache]
    · have heq := extract_loop_buf_eq H sc.state n n sc.counter
        scB.out_buffer scB.out_buffer_pos scB.out_buffer_len
      have hspent := extract_loop_buf_spent H sc.state n n sc.counter
        scB.out_buffer scB.out_buffer_pos scB.out_buffer_len hcache hdvd
      constructor
      · simp only [KeccakPrng.inner_keccak256_extract,
          KeccakPrngBuf.inner_keccak256_extract, hfin, hfinB, havail]
        simp [hn, heq.1, hs, hc]
      · refine ⟨?_, ?_, ?_, ?_, ?_⟩ <;>
          simp only [KeccakPrng.inner_keccak256_extract,
            KeccakPrngBuf.inner_keccak256_extract, hfin, hfinB, havail] <;>
          simp [hn, heq.2, hb, hs, hc, hf]
        exact hspent
  · have hfinB : scB.finalized = false := by
      rw [hf]
      simp at hfin
      exact hfin
    have hfin' : sc.finalized = false := by simp at hfin; exact hfin
    constructor
    · simp [KeccakPrng.inner_keccak256_extract,
        KeccakPrngBuf.inner_keccak256_extract, hfin', hfinB]
    · refine ⟨?_, ?_, ?_, ?_, ?_⟩ <;>
        simp [KeccakPrng.inner_keccak256_extract,
          KeccakPrngBuf.inner_keccak256_extract, hfin', hfinB, hb, hs, hc,
          hf, hcache]

/-- Folding a sequence of block-aligned extract calls over corresponding
contexts accumulates the same bytes in both variants. -/
theorem runScript_fold (H : List Byte → List Byte) :
    ∀ (calls : List Nat) (acc : List Byte) (sc : prng_ctx)
      (scB : prng_ctx_buf),
      cacheSpent sc scB → (∀ n ∈ calls, 32 ∣ n) →
      (calls.foldl
        (fun (a : List Byte × prng_ctx_buf) n =>
          let r := KeccakPrngBuf.inner_keccak256_extract H a.2 n
          (a.1 ++ r.2.1, r.2.2)) (acc, scB)).1 =
      (calls.foldl
        (fun (a : List Byte × prng_ctx) n =>
          let r := KeccakPrng.inner_keccak256_extract H a.2 n
          (a.1 ++ r.2.1, r.2.2)) (acc, sc)).1 := by
  intro calls
  induction calls with
  | nil => intro acc sc scB _ _; rfl
  | cons n cs ih =>
    intro acc sc scB hrel hall
    have hstep := extract_preserves_cacheSpent H sc scB n hrel
      (hall n (by simp))
    simp only [List.foldl_cons]
    rw [hstep.1]
    exact ih (acc ++ (KeccakPrng.inner_keccak256_extract H sc n).2.1) _ _
      hstep.2 (fun k hk => hall k (by simp [hk]))

/-- A successful extract call returns the first `n` bytes of the block stream
starting at the current counter. -/
theorem extract_out (H : List Byte → List Byte)
    (hH : ∀ x, (H x).length = 32) (sc : prng_ctx)
    (hfin : sc.finalized = true) (n : Nat) :
    (KeccakPrng.inner_keccak256_extract H sc n).2.1 =
      (blocks H sc.state sc.counter ((n + 31) / 32)).take n := by
  simp only [KeccakPrng.inner_keccak256_extract, hfin]
  rw [if_neg (by simp)]
  show (extract_loop H sc.state sc.counter n n).1 = _
  exact extract_loop_out H sc.state hH n n sc.counter (le_refl n)

/-- A successful extract call advances the counter by one per block
produced. -/
theorem extract_counter_eq (H : List Byte → List Byte) (sc : prng_ctx)
    (hfin : sc.finalized = true) (n : Nat) :
    (KeccakPrng.inner_keccak256_extract H sc n).2.2.counter =
      (if n = 0 then sc.counter else (sc.counter + (n + 31) / 32) % 2 ^ 64) := by
  simp only [KeccakPrng.inner_keccak256_extract, hfin]
  rw [if_neg (by simp)]
  show (extract_loop H sc.state sc.counter n n).2 = _
  exact extract_loop_counter H sc.state n n sc.counter (le_refl n)

/-- A successful extract call leaves the derived state and the finalized flag
unchanged. -/
theorem extract_ctx_frame (H : List Byte → List Byte) (sc : prng_ctx)
    (hfin : sc.finalized = true) (n : Nat) :
    (KeccakPrng.inner_keccak256_extract H sc n).2.2.state = sc.state ∧
    (KeccakPrng.inner_keccak256_extract H sc n).2.2.finalized = true := by
  constructor <;> simp [KeccakPrng.inner_keccak256_extract, hfin]

/-- C4: two freshly initialized engines fed the same input chunks through the
same inject calls, finalized, and asked for the same number of bytes in one
extract call produce identical output; the embedding of the pipeline is a pure
function of the call sequence, so no hidden state can influence the result. -/
theorem claim4_determinism (H : List Byte → List Byte) (MAX : Nat)
    (chunks1 chunks2 : List (List Byte)) (n : Nat) (h : chunks1 = chunks2) :
    pipelineOut H MAX chunks1 n = pipelineOut H MAX chunks2 n := by
  rw [h]

theorem claim4_determinism_witness :
    pipelineOut testH 64 [[1, 2], [3]] 40 =
      pipelineOut testH 64 [[1, 2], [3]] 40 :=
  claim4_determinism testH 64 [[1, 2], [3]] [[1, 2], [3]] 40 rfl

/-- C5: on a fresh engine, injecting `a` then `b` in two calls and then
finalizing and extracting gives exactly the bytes obtained by injecting the
concatenation `a ++ b` in one call, when the combined length fits the
capacity. -/
theorem claim5_incremental_absorption (H : List Byte → List Byte) (MAX : Nat)
    (a b : List Byte) (n : Nat) (hab : a.length + b.length ≤ MAX) :
    (KeccakPrng.inner_keccak256_extract H
      (KeccakPrng.inner_keccak256_flip H
        (KeccakPrng.inner_keccak256_inject MAX
          (KeccakPrng.inner_keccak256_inject MAX pristine_ctx a).2 b).2).2
      n).2.1 =
    (KeccakPrng.inner_keccak256_extract H
      (KeccakPrng.inner_keccak256_flip H
        (KeccakPrng.inner_keccak256_inject MAX pristine_ctx (a ++ b)).2).2
      n).2.1 := by
  have h1 : ¬(a.length > MAX) := by omega
  have h2 : ¬(a.length + b.length > MAX) := by omega
  have hctx : (KeccakPrng.inner_keccak256_inject MAX
      (KeccakPrng.inner_keccak256_inject MAX pristine_ctx a).2 b).2 =
      (KeccakPrng.inner_keccak256_inject MAX pristine_ctx (a ++ b)).2 := by
    simp [KeccakPrng.inner_keccak256_inject, pristine_ctx, h1, h2]
  rw [hctx]

theorem claim5_incremental_absorption_witness :
    (KeccakPrng.inner_keccak256_extract testH
      (KeccakPrng.inner_keccak256_flip testH
        (KeccakPrng.inner_keccak256_inject 64
          (KeccakPrng.inner_keccak256_inject 64 pristine_ctx [1]).2
          [2, 3]).2).2 40).2.1 =
    (KeccakPrng.inner_keccak256_extract testH
      (KeccakPrng.inner_keccak256_flip testH
        (KeccakPrng.inner_keccak256_inject 64 pristine_ctx
          ([1] ++ [2, 3])).2).2 40).2.1 :=
  claim5_incremental_absorption testH 64 [1] [2, 3] 40 (by decide)

/-- C6: the phase guards.  `inject` after finalize and a second `flip` fail
with the invalid-state code -2 and leave the context untouched; `extract`
before finalize fails with -2, returns no bytes and leaves the context
untouched — in both engine variants every guarded failure is a no-op on the
state. -/
theorem claim6_phase_guards (H : List Byte → List Byte) (MAX : Nat)
    (sc : prng_ctx) (scB : prng_ctx_buf) (input : List Byte) (len : Nat) :
    (sc.finalized = true →
      KeccakPrng.inner_keccak256_inject MAX sc input = (-2, sc) ∧
      KeccakPrng.inner_keccak256_flip H sc = (-2, sc)) ∧
    (sc.finalized = false →
      KeccakPrng.inner_keccak256_extract H sc len = (-2, [], sc)) ∧
    (scB.finalized = true →
      KeccakPrngBuf.inner_keccak256_inject MAX scB input = (-2, scB) ∧
      KeccakPrngBuf.inner_keccak256_flip H scB = (-2, scB)) ∧
    (scB.finalized = false →
      KeccakPrngBuf.inner_keccak256_extract H scB len = (-2, [], scB)) := by
  refine ⟨fun h => ⟨?_, ?_⟩, fun h => ?_, fun h => ⟨?_, ?_⟩, fun h => ?_⟩ <;>
    simp [KeccakPrng.inner_keccak256_inject, KeccakPrng.inner_keccak256_flip,
      KeccakPrng.inner_keccak256_extract, KeccakPrngBuf.inner_keccak256_inject,
      KeccakPrngBuf.inner_keccak256_flip, KeccakPrngBuf.inner_keccak256_extract,
      h]

theorem claim6_phase_guards_witness :
    (KeccakPrng.inner_keccak256_inject 8
        ⟨[1], List.replicate 32 0, 0, true⟩ [2] =
      (-2, ⟨[1], List.replicate 32 0, 0, true⟩) ∧
     KeccakPrng.inner_keccak256_flip testH
        ⟨[1], List.replicate 32 0, 0, true⟩ =
      (-2, ⟨[1], List.replicate 32 0, 0, true⟩)) ∧
    KeccakPrngBuf.inner_keccak256_extract testH pristine_ctx_buf 5 =
      (-2, [], pristine_ctx_buf) :=
  ⟨(claim6_phase_guards testH 8 ⟨[1], List.replicate 32 0, 0, true⟩
      pristine_ctx_buf [2] 5).1 rfl,
   (claim6_phase_guards testH 8 ⟨[1], List.replicate 32 0, 0, true⟩
      pristine_ctx_buf [2] 5).2.2.2 rfl⟩

/-- C7: the capacity guard.  On a non-finalized engine, when the buffered
length plus the chunk length would exceed the capacity, inject fails with the
overflow code -3 and copies nothing (the context is unchanged); otherwise it
succeeds and appends the whole chunk — in all three variants found in the
sources. -/
theorem claim7_capacity_guard (MAX : Nat) (sc : prng_ctx)
    (scB : prng_ctx_buf) (input : List Byte) (hfin : sc.finalized = false)
    (hfinB : scB.finalized = false) :
    (sc.buffer.length + input.length > MAX →
      KeccakPrng.inner_keccak256_inject MAX sc input = (-3, sc) ∧
      KeccakPrngDS.inner_keccak256_inject MAX sc input = (-3, sc)) ∧
    (sc.buffer.length + input.length ≤ MAX →
      KeccakPrng.inner_keccak256_inject MAX sc input =
        (0, { sc with buffer := sc.buffer ++ input }) ∧
      KeccakPrngDS.inner_keccak256_inject MAX sc input =
        (0, { sc with buffer := sc.buffer ++ input })) ∧
    (scB.buffer.length + input.length > MAX →
      KeccakPrngBuf.inner_keccak256_inject MAX scB input = (-3, scB)) ∧
    (scB.buffer.length + input.length ≤ MAX →
      KeccakPrngBuf.inner_keccak256_inject MAX scB input =
        (0, { scB with buffer := scB.buffer ++ input })) := by
  refine ⟨fun h => ?_, fun h => ?_, fun h => ?_, fun h => ?_⟩
  · exact ⟨by simp [KeccakPrng.inner_keccak256_inject, hfin, h],
      by simp [KeccakPrngDS.inner_keccak256_inject, hfin, h]⟩
  · have h' : ¬(sc.buffer.length + input.length > MAX) := by omega
    exact ⟨by simp [KeccakPrng.inner_keccak256_inject, hfin, h'],
      by simp [KeccakPrngDS.inner_keccak256_inject, hfin, h']⟩
  · simp [KeccakPrngBuf.inner_keccak256_inject, hfinB, h]
  · have h' : ¬(scB.buffer.length + input.length > MAX) := by omega
    simp [KeccakPrngBuf.inner_keccak256_inject, hfinB, h']

theorem claim7_capacity_guard_witness :
    KeccakPrng.inner_keccak256_inject 4
        ⟨[1, 2, 3], List.replicate 32 0, 0, false⟩ [4, 5] =
      (-3, ⟨[1, 2, 3], List.replicate 32 0, 0, false⟩) ∧
    KeccakPrng.inner_keccak256_inject 4
        ⟨[1, 2, 3], List.replicate 32 0, 0, false⟩ [4] =
      (0, ⟨[1, 2, 3, 4], List.replicate 32 0, 0, false⟩) :=
  ⟨((claim7_capacity_guard 4 ⟨[1, 2, 3], List.replicate 32 0, 0, false⟩
        pristine_ctx_buf [4, 5] rfl rfl).1 (by decide)).1,
   ((claim7_capacity_guard 4 ⟨[1, 2, 3], List.replicate 32 0, 0, false⟩
        pristine_ctx_buf [4] rfl rfl).2.1 (by decide)).1⟩

/-- C9: extraction frame property.  A successful extract (engine finalized)
returns code 0 and leaves the input buffer, the derived state and the
finalized flag unchanged, in both variants; only the counter (and, in the
caching variant, the output cache) mutates. -/
theorem claim9_extract_frame (H : List Byte → List Byte) (sc : prng_ctx)
    (scB : prng_ctx_buf) (len : Nat) (hfin : sc.finalized = true)
    (hfinB : scB.finalized = true) :
    ((KeccakPrng.inner_keccak256_extract H sc len).1 = 0 ∧
     (KeccakPrng.inner_keccak256_extract H sc len).2.2.buffer = sc.buffer ∧
     (KeccakPrng.inner_keccak256_extract H sc len).2.2.state = sc.state ∧
     (KeccakPrng.inner_keccak256_extract H sc len).2.2.finalized = true) ∧
    ((KeccakPrngBuf.inner_keccak256_extract H scB len).1 = 0 ∧
     (KeccakPrngBuf.inner_keccak256_extract H scB len).2.2.buffer =
       scB.buffer ∧
     (KeccakPrngBuf.inner_keccak256_extract H scB len).2.2.state =
       scB.state ∧
     (KeccakPrngBuf.inner_keccak256_extract H scB len).2.2.finalized =
       true) := by
  constructor
  · refine ⟨?_, ?_, ?_, ?_⟩ <;>
      simp [KeccakPrng.inner_keccak256_extract, hfin]
  · refine ⟨?_, ?_, ?_, ?_⟩ <;>
      (simp only [KeccakPrngBuf.inner_keccak256_extract, hfinB]
       rw [if_neg (by simp)]
       split <;> rfl)

theorem claim9_extract_frame_witness :
    ((KeccakPrng.inner_keccak256_extract testH
        ⟨[9], List.replicate 32 1, 0, true⟩ 5).1 = 0 ∧
     (KeccakPrng.inner_keccak256_extract testH
        ⟨[9], List.replicate 32 1, 0, true⟩ 5).2.2.buffer = [9] ∧
     (KeccakPrng.inner_keccak256_extract testH
        ⟨[9], List.replicate 32 1, 0, true⟩ 5).2.2.state =
       List.replicate 32 1 ∧
     (KeccakPrng.inner_keccak256_extract testH
        ⟨[9], List.replicate 32 1, 0, true⟩ 5).2.2.finalized = true) ∧
    ((KeccakPrngBuf.inner_keccak256_extract testH
        ⟨[9], List.replicate 32 1, 0, true, [], 0, 0⟩ 5).1 = 0 ∧
     (KeccakPrngBuf.inner_keccak256_extract testH
        ⟨[9], List.replicate 32 1, 0, true, [], 0, 0⟩ 5).2.2.buffer = [9] ∧
     (KeccakPrngBuf.inner_keccak256_extract testH
        ⟨[9], List.replicate 32 1, 0, true, [], 0, 0⟩ 5).2.2.state =
       List.replicate 32 1 ∧
     (KeccakPrngBuf.inner_keccak256_extract testH
        ⟨[9], List.replicate 32 1, 0, true, [], 0, 0⟩ 5).2.2.finalized =
       true) :=
  claim9_extract_frame testH ⟨[9], List.replicate 32 1, 0, true⟩
    ⟨[9], List.replicate 32 1, 0, true, [], 0, 0⟩ 5 rfl rfl

/-- C10: re-initialization.  `inner_keccak256_init` succeeds on a context in
any state — including a finalized, already-used one — and restores exactly the
pristine initial state (empty zeroed buffer, zeroed derived state, counter 0,
not finalized, and in the caching variant an empty output cache); no guard
prevents re-initialization. -/
theorem claim10_reinit (sc1 sc2 : prng_ctx) (scB : prng_ctx_buf) :
    KeccakPrng.inner_keccak256_init sc1 = (0, pristine_ctx) ∧
    KeccakPrngDS.inner_keccak256_init sc2 = (0, pristine_ctx) ∧
    KeccakPrngBuf.inner_keccak256_init scB = (0, pristine_ctx_buf) ∧
    pristine_ctx = { buffer := [], state := List.replicate 32 0, counter := 0,
                     finalized := false } ∧
    pristine_ctx_buf =
      { buffer := [], state := List.replicate 32 0, counter := 0,
        finalized := false, out_buffer := [], out_buffer_pos := 0,
        out_buffer_len := 0 } :=
  ⟨rfl, rfl, rfl, rfl, rfl⟩

/-- C3: counter-mode expansion.  On a finalized engine whose counter is 0, a
single `extract(n)` returns exactly the first `n` bytes of the concatenation
`digest(state ‖ be64 0) ‖ digest(state ‖ be64 1) ‖ …` (the final block
truncated to the remaining byte count), and the counter ends up advanced by
one per block produced, i.e. at `⌈n/32⌉` (as a 64-bit value). -/
theorem claim3_counter_mode (H : List Byte → List Byte)
    (hH : ∀ x, (H x).length = 32) (sc : prng_ctx)
    (hfin : sc.finalized = true) (hzero : sc.counter = 0) (n : Nat) :
    (KeccakPrng.inner_keccak256_extract H sc n).2.1 =
      (blocks H sc.state 0 ((n + 31) / 32)).take n ∧
    (KeccakPrng.inner_keccak256_extract H sc n).2.2.counter =
      (if n = 0 then 0 else ((n + 31) / 32) % 2 ^ 64) := by
  constructor
  · rw [extract_out H hH sc hfin n, hzero]
  · rw [extract_counter_eq H sc hfin n, hzero]
    simp

theorem claim3_counter_mode_witness :
    (KeccakPrng.inner_keccak256_extract testH
        ⟨[], List.replicate 32 8, 0, true⟩ 33).2.1 =
      (blocks testH (List.replicate 32 8) 0 ((33 + 31) / 32)).take 33 ∧
    (KeccakPrng.inner_keccak256_extract testH
        ⟨[], List.replicate 32 8, 0, true⟩ 33).2.2.counter =
      (if 33 = 0 then 0 else ((33 + 31) / 32) % 2 ^ 64) :=
  claim3_counter_mode testH (fun x => by simp [testH])
    ⟨[], List.replicate 32 8, 0, true⟩ rfl rfl 33

/-- C1 counterexample: in the non-caching engine, extracting 1 byte and then
1 byte does not equal extracting 2 bytes and splitting: the first call
discards the 31 unused bytes of block 0 and advances the counter, so the
second call's byte comes from block 1 instead of position 1 of block 0. -/
theorem claim1_seq_extraction_counterexample :
    (KeccakPrng.inner_keccak256_extract testH
        ⟨[], List.replicate 32 8, 0, true⟩ 1).2.1 ++
      (KeccakPrng.inner_keccak256_extract testH
        (KeccakPrng.inner_keccak256_extract testH
          ⟨[], List.replicate 32 8, 0, true⟩ 1).2.2 1).2.1 ≠
    (KeccakPrng.inner_keccak256_extract testH
        ⟨[], List.replicate 32 8, 0, true⟩ 2).2.1 := by
  decide

/-- C1 amended: sequential-extraction equivalence holds in the non-caching
engine when the first request is block-aligned: for every finalized engine and
all `n1, n2` with `32 ∣ n1`, extracting `n1` then `n2` bytes yields the same
bytes as extracting `n1+n2` in one call and splitting at offset `n1` (the
first call's output has length exactly `n1`). -/
theorem claim1_seq_extraction_amended (H : List Byte → List Byte)
    (hH : ∀ x, (H x).length = 32) (sc : prng_ctx)
    (hfin : sc.finalized = true) (n1 n2 : Nat) (hdvd : 32 ∣ n1) :
    (KeccakPrng.inner_keccak256_extract H sc n1).2.1 ++
      (KeccakPrng.inner_keccak256_extract H
        (KeccakPrng.inner_keccak256_extract H sc n1).2.2 n2).2.1 =
      (KeccakPrng.inner_keccak256_extract H sc (n1 + n2)).2.1 ∧
    ((KeccakPrng.inner_keccak256_extract H sc n1).2.1).length = n1 := by
  obtain ⟨q, hq⟩ := hdvd
  have hceil1 : (n1 + 31) / 32 = q := by omega
  have hlenb : (blocks H sc.state sc.counter q).length = 32 * q :=
    blocks_length H sc.state hH q sc.counter
  have hout1 : (KeccakPrng.inner_keccak256_extract H sc n1).2.1 =
      blocks H sc.state sc.counter q := by
    rw [extract_out H hH sc hfin n1, hceil1]
    exact List.take_of_length_le (by rw [hlenb]; omega)
  have hmid := extract_ctx_frame H sc hfin n1
  have hmidc := extract_counter_eq H sc hfin n1
  have hout2 : (KeccakPrng.inner_keccak256_extract H
      (KeccakPrng.inner_keccak256_extract H sc n1).2.2 n2).2.1 =
      (blocks H sc.state (sc.counter + q) ((n2 + 31) / 32)).take n2 := by
    rw [extract_out H hH (KeccakPrng.inner_keccak256_extract H sc n1).2.2
      hmid.2 n2, hmid.1, hmidc, hceil1]
    by_cases h0 : n1 = 0
    · have hq0 : q = 0 := by omega
      rw [if_pos h0, hq0]
      simp
    · rw [if_neg h0]
      exact congrArg (List.take n2)
        (blocks_congr H sc.state _ _ _ (Nat.mod_mod_of_dvd _ dvd_rfl))
  have hceil12 : (n1 + n2 + 31) / 32 = q + (n2 + 31) / 32 := by omega
  have hout12 : (KeccakPrng.inner_keccak256_extract H sc (n1 + n2)).2.1 =
      (blocks H sc.state sc.counter q ++
        blocks H sc.state (sc.counter + q) ((n2 + 31) / 32)).take (n1 + n2) := by
    rw [extract_out H hH sc hfin (n1 + n2), hceil12, blocks_add]
  constructor
  · rw [hout1, hout2, hout12, List.take_append_eq_append_take, hlenb]
    have hn2 : n1 + n2 - 32 * q = n2 := by omega
    rw [hn2]
    congr 1
    exact (List.take_of_length_le (by rw [hlenb]; omega)).symm
  · rw [hout1, hlenb]
    omega

theorem claim1_seq_extraction_amended_witness :
    (32 : Nat) ∣ 32 ∧
    ((KeccakPrng.inner_keccak256_extract testH
        ⟨[], List.replicate 32 8, 0, true⟩ 32).2.1 ++
      (KeccakPrng.inner_keccak256_extract testH
        (KeccakPrng.inner_keccak256_extract testH
          ⟨[], List.replicate 32 8, 0, true⟩ 32).2.2 1).2.1 =
      (KeccakPrng.inner_keccak256_extract testH
        ⟨[], List.replicate 32 8, 0, true⟩ (32 + 1)).2.1 ∧
     ((KeccakPrng.inner_keccak256_extract testH
        ⟨[], List.replicate 32 8, 0, true⟩ 32).2.1).length = 32) :=
  ⟨by decide,
   claim1_seq_extraction_amended testH (fun x => by simp [testH])
     ⟨[], List.replicate 32 8, 0, true⟩ rfl 32 1 (by decide)⟩

/-- C2 counterexample: driven with the call sequence `extract(1); extract(1)`
on the same injected input, the caching engine serves the second byte from the
cached block 0 while the non-caching engine generates block 1, so the
observable outputs differ. -/
theorem claim2_cache_counterexample :
    runScriptBuf testH 64 [7] [1, 1] ≠ runScript testH 64 [7] [1, 1] := by
  decide

/-- C2 amended: the caching variant produces byte-for-byte the same observable
output as the non-caching variant for every input sequence and every sequence
of extract-call lengths in which each requested length is a multiple of the
32-byte block size (in particular, for any single extract call); for call
sequences containing a partial-block request followed by another request the
two variants genuinely differ. -/
theorem claim2_cache_refinement_amended (H : List Byte → List Byte)
    (MAX : Nat) (seed : List Byte) (calls : List Nat)
    (hall : ∀ n ∈ calls, 32 ∣ n) :
    runScriptBuf H MAX seed calls = runScript H MAX seed calls := by
  have hrel : cacheSpent
      (KeccakPrng.inner_keccak256_flip H
        (KeccakPrng.inner_keccak256_inject MAX
          (KeccakPrng.inner_keccak256_init pristine_ctx).2 seed).2).2
      (KeccakPrngBuf.inner_keccak256_flip H
        (KeccakPrngBuf.inner_keccak256_inject MAX
          (KeccakPrngBuf.inner_keccak256_init pristine_ctx_buf).2 seed).2).2 := by
    by_cases hov : seed.length > MAX <;>
      refine ⟨?_, ?_, ?_, ?_, ?_⟩ <;>
        simp [KeccakPrng.inner_keccak256_init,
          KeccakPrngBuf.inner_keccak256_init,
          KeccakPrng.inner_keccak256_inject,
          KeccakPrngBuf.inner_keccak256_inject,
          KeccakPrng.inner_keccak256_flip, KeccakPrngBuf.inner_keccak256_flip,
          pristine_ctx, pristine_ctx_buf, hov]
  exact runScript_fold H calls [] _ _ hrel hall

theorem claim2_cache_refinement_amended_witness :
    runScriptBuf testH 64 [7] [32, 64] = runScript testH 64 [7] [32, 64] :=
  claim2_cache_refinement_amended testH 64 [7] [32, 64] (by
    intro n hn
    simp only [List.mem_cons, List.not_mem_nil, or_false] at hn
    rcases hn with h | h <;> subst h <;> decide)

/-- C8 counterexample: in the domain-separation variant, `flip` on a
non-finalized engine whose buffer is completely full fails with the overflow
code -3 (there is no room for the 0x1F suffix byte), so finalize failing does
not imply the engine was already finalized. -/
theorem claim8_finalize_counterexample :
    ((⟨List.replicate 4 0, List.replicate 32 0, 0, false⟩ : prng_ctx).finalized
        = false) ∧
    (KeccakPrngDS.inner_keccak256_flip testH 4
        ⟨List.replicate 4 0, List.replicate 32 0, 0, false⟩).1 = -3 := by
  decide

/-- C8 amended: in the plain and caching variants, finalize fails (with code
-2) exactly when the engine is already finalized, and on a non-finalized
engine it sets the derived state to the digest of the absorbed bytes, sets the
flag and (in the caching variant) resets the output cache.  In the
domain-separation variant the same holds except that a non-finalized engine
whose buffer cannot take the 0x1F suffix byte (buffer full) makes finalize
fail with the overflow code -3, leaving the state unchanged; with room for the
suffix it hashes the absorbed bytes followed by 0x1F. -/
theorem claim8_finalize_amended (H : List Byte → List Byte) (MAX : Nat)
    (sc : prng_ctx) (scB : prng_ctx_buf) :
    ((KeccakPrng.inner_keccak256_flip H sc).1 ≠ 0 ↔ sc.finalized = true) ∧
    (sc.finalized = true → KeccakPrng.inner_keccak256_flip H sc = (-2, sc)) ∧
    (sc.finalized = false →
      KeccakPrng.inner_keccak256_flip H sc =
        (0, { sc with state := H sc.buffer, finalized := true })) ∧
    ((KeccakPrngBuf.inner_keccak256_flip H scB).1 ≠ 0 ↔
      scB.finalized = true) ∧
    (scB.finalized = false →
      KeccakPrngBuf.inner_keccak256_flip H scB =
        (0, { scB with state := H scB.buffer, finalized := true,
                       out_buffer_pos := 0, out_buffer_len := 0 })) ∧
    (sc.finalized = false → sc.buffer.length + 1 ≤ MAX →
      KeccakPrngDS.inner_keccak256_flip H MAX sc =
        (0, { sc with buffer := sc.buffer ++ [0x1F],
                      state := H (sc.buffer ++ [0x1F]),
                      finalized := true })) ∧
    (sc.finalized = false → sc.buffer.length + 1 > MAX →
      KeccakPrngDS.inner_keccak256_flip H MAX sc = (-3, sc)) := by
  refine ⟨?_, fun h => ?_, fun h => ?_, ?_, fun h => ?_, fun h hle => ?_,
    fun h hgt => ?_⟩
  · cases hsc : sc.finalized <;>
      simp [KeccakPrng.inner_keccak256_flip, hsc]
  · simp [KeccakPrng.inner_keccak256_flip, h]
  · simp [KeccakPrng.inner_keccak256_flip, h]
  · cases hscB : scB.finalized <;>
      simp [KeccakPrngBuf.inner_keccak256_flip, hscB]
  · simp [KeccakPrngBuf.inner_keccak256_flip, h]
  · have h' : ¬(sc.buffer.length + 1 > MAX) := by omega
    simp [KeccakPrngDS.inner_keccak256_flip, h, h']
  · simp [KeccakPrngDS.inner_keccak256_flip, h, hgt]

theorem claim8_finalize_amended_witness :
    KeccakPrng.inner_keccak256_flip testH
        ⟨[1, 2], List.replicate 32 0, 0, false⟩ =
      (0, { buffer := [1, 2], state := testH [1, 2], counter := 0,
            finalized := true }) ∧
    KeccakPrngDS.inner_keccak256_flip testH 8
        ⟨[1, 2], List.replicate 32 0, 0, false⟩ =
      (0, { buffer := [1, 2] ++ [0x1F], state := testH ([1, 2] ++ [0x1F]),
            counter := 0, finalized := true }) :=
  ⟨(claim8_finalize_amended testH 8 ⟨[1, 2], List.replicate 32 0, 0, false⟩
      pristine_ctx_buf).2.2.1 rfl,
   (claim8_finalize_amended testH 8 ⟨[1, 2], List.replicate 32 0, 0, false⟩
      pristine_ctx_buf).2.2.2.2.2.1 rfl (by decide)⟩

end FalconPrng
